import Mathlib

/-!
Verification of the text transforms of the `bababui` transcript editor
(`src/formatter.py`).  Python strings are embedded as `List Char`; the two
pure transforms `strip_formatting` and `apply_formatting` are translated
line for line, and the batch directory walk `batch_strip_formatting` is
modelled over an explicit file-system state.  The character predicates
model Python's whitespace (`str.strip`, regex `\s`) and digit (`\d`)
classes restricted to the ASCII range, which is the range the transcript
format uses.
-/

namespace Bababui

/-- Whitespace as tested by `line.strip()` and matched by `\s`
(ASCII range): space, tab, newline, vertical tab, form feed,
carriage return. -/
def pyIsSpace (c : Char) : Bool :=
  c.toNat = 32 || c.toNat = 9 || c.toNat = 10 || c.toNat = 11 ||
  c.toNat = 12 || c.toNat = 13

/-- Decimal digits as matched by `\d` (ASCII range). -/
def pyIsDigit (c : Char) : Bool :=
  48 ≤ c.toNat && c.toNat ≤ 57

/-- The character for a single decimal digit (`d ≤ 9` in every use). -/
def digitChar : Nat → Char
  | 0 => '0' | 1 => '1' | 2 => '2' | 3 => '3' | 4 => '4'
  | 5 => '5' | 6 => '6' | 7 => '7' | 8 => '8' | _ => '9'

/-- Decimal rendering of a natural number, most significant digit first,
as Python's `repr`/f-string conversion produces.  The first argument is
fuel; `natChars` supplies fuel `n`, which is enough since the number of
digits of `n` is at most `n`. -/
def natCharsAux : Nat → Nat → List Char → List Char
  | 0, n, acc => digitChar n :: acc
  | fuel + 1, n, acc =>
      if n < 10 then digitChar n :: acc
      else natCharsAux fuel (n / 10) (digitChar (n % 10) :: acc)

/-- Decimal digit string of `n` (the embedding of `f-string` conversion
of an integer). -/
def natChars (n : Nat) : List Char := natCharsAux n n []

/-- Right-justification in a field of `w` characters, space filled:
the embedding of Python's format spec `:>w`. -/
def rjust (w : Nat) (s : List Char) : List Char :=
  List.replicate (w - s.length) ' ' ++ s

/-- The literal four-space separator between a line number and its
content. -/
def sep4 : List Char := [' ', ' ', ' ', ' ']

/-- `text.split('\n')`: cut a character sequence at every newline;
the empty text yields one empty line, a trailing newline yields a
trailing empty line. -/
def splitLines : List Char → List (List Char)
  | [] => [[]]
  | c :: cs =>
      if c = '\n' then [] :: splitLines cs
      else
        match splitLines cs with
        | [] => [[c]]
        | l :: ls => (c :: l) :: ls

/-- `'\n'.join(lines)`: the inverse direction of `splitLines`. -/
def joinLines : List (List Char) → List Char
  | [] => []
  | [l] => l
  | l :: ls => l ++ '\n' :: joinLines ls

/-- The numbered-content recognizer of `strip_formatting`: the
anchored regex match `^\s*\d+ {4}(.*)`.  It skips the maximal leading
whitespace run, requires a nonempty maximal digit run, then exactly four
literal spaces, and yields the captured remainder.  (The regex engine's
backtracking can never produce a different parse: shortening `\s*` puts
a whitespace character where `\d` is required, and shortening `\d+` puts
a digit where a space is required.) -/
def matchNumbered (l : List Char) : Option (List Char) :=
  let r := l.dropWhile pyIsSpace
  let ds := r.takeWhile pyIsDigit
  if ds = [] then none
  else
    let rest := r.drop ds.length
    if rest.take 4 = sep4 then some (rest.drop 4) else none

/-- The page-footer recognizer of `strip_formatting`: the anchored
regex match `^\s*\d+\s*$` — whitespace, a nonempty contiguous digit
run, then whitespace to the end of the line. -/
def isFooter (l : List Char) : Bool :=
  let r := l.dropWhile pyIsSpace
  let ds := r.takeWhile pyIsDigit
  !(ds = []) && (r.drop ds.length).all pyIsSpace

/-- One loop iteration of `strip_formatting`: blank lines and footers
are dropped (`none`), a numbered line contributes its remainder, any
other line is kept verbatim. -/
def classify (l : List Char) : Option (List Char) :=
  if l.all pyIsSpace then none
  else
    match matchNumbered l with
    | some content => some content
    | none => if isFooter l then none else some l

/-- `Formatter.strip_formatting`: split into lines, classify each line,
join the surviving lines with single newlines. -/
def strip_formatting (t : List Char) : List Char :=
  joinLines ((splitLines t).filterMap classify)

/-- Page capacity: `self.LINES_PER_PAGE`. -/
def LINES_PER_PAGE : Nat := 25

/-- The 5-blank-line page header emitted as `"\n" * 5`. -/
def header5 : List Char := List.replicate 5 '\n'

/-- A numbered line without its trailing double spacing:
`f"{line_counter:>11}    {line}"`. -/
def numLine (k : Nat) (l : List Char) : List Char :=
  rjust 11 (natChars k) ++ sep4 ++ l

/-- A full numbered slot: `f"{line_counter:>11}    {line}\n\n"`. -/
def slotChunk (k : Nat) (l : List Char) : List Char :=
  numLine k l ++ ['\n', '\n']

/-- A completed-page footer plus the header of the following page:
`f"\n{page_counter:>72}\n\f"` followed by `"\n" * 5`. -/
def pageBreakChunk (p : Nat) : List Char :=
  '\n' :: (rjust 72 (natChars p) ++ ['\n', '\x0c'] ++ header5)

/-- A number-only padding slot: `f"{line_counter:>11}\n\n"`. -/
def renderPad (k : Nat) : List Char :=
  rjust 11 (natChars k) ++ ['\n', '\n']

/-- The padding loop `while line_counter <= LINES_PER_PAGE`, with
explicit fuel (`padTo` supplies enough fuel to reach 25). -/
def padToAux : Nat → Nat → List Char
  | 0, _ => []
  | fuel + 1, k =>
      if k ≤ LINES_PER_PAGE then renderPad k ++ padToAux fuel (k + 1)
      else []

/-- Padding slots numbered `k`, `k+1`, …, `25`. -/
def padTo (k : Nat) : List Char :=
  padToAux (LINES_PER_PAGE + 1 - k) k

/-- The last-page footer `f"\n{page_counter:>72}"` (no form feed). -/
def finalFooter (p : Nat) : List Char :=
  '\n' :: rjust 72 (natChars p)

/-- The mutable state of the `apply_formatting` loop: the accumulated
output and the two counters. -/
structure ApplyState where
  out : List Char
  lineCounter : Nat
  pageCounter : Nat

/-- One iteration of the `for line in lines` loop of
`apply_formatting`: blank lines are skipped; otherwise the numbered
slot is appended and, when the page is full, the footer/next-header is
appended and the counters roll over. -/
def applyStep (s : ApplyState) (line : List Char) : ApplyState :=
  if line.all pyIsSpace then s
  else
    let out1 := s.out ++ slotChunk s.lineCounter line
    if s.lineCounter = LINES_PER_PAGE then
      ⟨out1 ++ pageBreakChunk s.pageCounter, 1, s.pageCounter + 1⟩
    else
      ⟨out1, s.lineCounter + 1, s.pageCounter⟩

/-- `Formatter.apply_formatting`: the initial header, the numbering
loop, and — when the last page is partially filled — the padding loop
followed by the final footer.  Returns the text and the page counter. -/
def apply_formatting (t : List Char) : List Char × Nat :=
  let s := (splitLines t).foldl applyStep ⟨header5, 1, 1⟩
  if 1 < s.lineCounter ∧ s.lineCounter ≤ LINES_PER_PAGE then
    (s.out ++ padTo s.lineCounter ++ finalFooter s.pageCounter, s.pageCounter)
  else
    (s.out, s.pageCounter)

/-- A line survives `apply_formatting`'s blank filter. -/
def keptLine (l : List Char) : Bool := !(l.all pyIsSpace)

/-- The content lines of an input text: its lines with blank ones
dropped. -/
def contentLines (t : List Char) : List (List Char) :=
  (splitLines t).filter keptLine

/-- Closed form of what the numbering loop appends when run on content
lines `ls` with line counter `a` and page counter `p`. -/
def renderFrom : Nat → Nat → List (List Char) → List Char
  | _, _, [] => []
  | a, p, l :: ls =>
      slotChunk a l ++
        (if a = LINES_PER_PAGE then
          pageBreakChunk p ++ renderFrom 1 (p + 1) ls
        else renderFrom (a + 1) p ls)

/-- Consecutive numbered slots starting at number `k`, with no page
break (used to state per-page layouts). -/
def slotsFrom : Nat → List (List Char) → List Char
  | _, [] => []
  | k, l :: ls => slotChunk k l ++ slotsFrom (k + 1) ls

/-- A `.txt` file of the input directory as the batch loop sees it:
its name, the outcome of reading it (content or an I/O error message),
and, when a write is attempted, whether the write fails.  Reading and
writing are the only fallible operations of the per-file `try` block;
`strip_formatting` itself is total. -/
instance exceptDecEq {ε α : Type} [DecidableEq ε] [DecidableEq α] :
    DecidableEq (Except ε α) := fun a b =>
  match a, b with
  | Except.error e1, Except.error e2 =>
      if h : e1 = e2 then isTrue (by rw [h]) else
        isFalse (by intro hc; cases hc; exact h rfl)
  | Except.error _, Except.ok _ => isFalse (by intro hc; cases hc)
  | Except.ok _, Except.error _ => isFalse (by intro hc; cases hc)
  | Except.ok a1, Except.ok a2 =>
      if h : a1 = a2 then isTrue (by rw [h]) else
        isFalse (by intro hc; cases hc; exact h rfl)

structure FileEntry where
  name : String
  readResult : Except String (List Char)
  writeError : Option String
deriving DecidableEq

/-- The file-system state the batch operation interacts with: the set
of existing directories and, per directory, its `.txt` files in glob
order.  Path hierarchy is abstracted: `mkdir(parents=True)` is
modelled as making the one requested directory exist. -/
structure FS where
  dirs : List String
  txtFiles : List (String × List FileEntry)
deriving DecidableEq

/-- `input_path.glob('*.txt')` for a directory of the modelled file
system. -/
def FS.filesIn (fs : FS) (d : String) : List FileEntry :=
  match fs.txtFiles.lookup d with
  | some l => l
  | none => []

/-- `output_path.mkdir(parents=True, exist_ok=True)`. -/
def mkdirParents (fs : FS) (d : String) : FS :=
  if d ∈ fs.dirs then fs else ⟨d :: fs.dirs, fs.txtFiles⟩

/-- The distinguished error of the batch operation:
`FileNotFoundError("Input folder '...' does not exist")`. -/
inductive BatchError where
  | dirNotFound (dir : String)
deriving DecidableEq

/-- A record of `results['processed']` (the `status: success` field is
implied). -/
structure ProcRecord where
  input : String
  output : String
deriving DecidableEq

/-- A record of `results['failed']`. -/
structure FailRecord where
  file : String
  error : String
deriving DecidableEq

/-- The `results` dictionary of `batch_strip_formatting`. -/
structure BatchResult where
  processed : List ProcRecord
  failed : List FailRecord
  skipped : List String
deriving DecidableEq

/-- `str(input_path / name)` on a POSIX file system. -/
def pathJoin (d n : String) : String := d ++ "/" ++ n

/-- The message appended to `results['skipped']` when the glob is
empty. -/
def noTxtFilesMsg : String := "No .txt files found in input folder"

/-- The body of the per-file `try` block: read, strip, write.  The
produced record carries the input and output paths; an exception
surfaces as the error string that the `except` clause stores. -/
def processOne (inputDir outputDir : String) (f : FileEntry) :
    Except String ProcRecord :=
  match f.readResult with
  | Except.error e => Except.error e
  | Except.ok content =>
      let _stripped := strip_formatting content
      match f.writeError with
      | some e => Except.error e
      | none =>
          Except.ok ⟨pathJoin inputDir f.name, pathJoin outputDir f.name⟩

/-- The `for file_path in text_files` loop: every success appends to
`processed`, every exception appends to `failed`, and the loop always
continues with the next file. -/
def batchLoop (inputDir outputDir : String) :
    List FileEntry → BatchResult → BatchResult
  | [], acc => acc
  | f :: rest, acc =>
      match processOne inputDir outputDir f with
      | Except.ok r =>
          batchLoop inputDir outputDir rest
            ⟨acc.processed ++ [r], acc.failed, acc.skipped⟩
      | Except.error e =>
          batchLoop inputDir outputDir rest
            ⟨acc.processed,
             acc.failed ++ [⟨pathJoin inputDir f.name, e⟩],
             acc.skipped⟩

/-- `Formatter.batch_strip_formatting`, faithful to the statement
order of the source: the output directory is created first, then the
input directory's existence is checked (raising the distinguished
error), then the glob; an empty glob yields the skipped note,
otherwise the per-file loop runs.  The returned file-system state is
the state at the moment the call returns or raises. -/
def batch_strip_formatting (fs : FS) (inputDir outputDir : String) :
    FS × Except BatchError BatchResult :=
  let fs1 := mkdirParents fs outputDir
  if inputDir ∈ fs1.dirs then
    let files := fs1.filesIn inputDir
    if files = [] then
      (fs1, Except.ok ⟨[], [], [noTxtFilesMsg]⟩)
    else
      (fs1, Except.ok (batchLoop inputDir outputDir files ⟨[], [], []⟩))
  else
    (fs1, Except.error (BatchError.dirNotFound inputDir))

/-- Whether the per-file pipeline of `f` runs to completion. -/
def fileOutcomeOk (f : FileEntry) : Bool :=
  match f.readResult, f.writeError with
  | Except.ok _, none => true
  | _, _ => false

/-- The error string the `except` clause records for a failing file. -/
def fileError (f : FileEntry) : String :=
  match f.readResult with
  | Except.error e => e
  | Except.ok _ =>
      match f.writeError with
      | some e => e
      | none => ""

/-- Sample input directory name, as wired in the UI layer. -/
def origDir : String := "original"

/-- Sample output directory name, as wired in the UI layer. -/
def strippedDir : String := "stripped"

/-- Sample readable file name. -/
def aTxtName : String := "a.txt"

/-- Sample unreadable file name. -/
def bTxtName : String := "b.txt"

/-- Error message of the sample unreadable file. -/
def permDenied : String := "Permission denied"

/-- A readable `.txt` file whose write succeeds. -/
def fileA : FileEntry := ⟨aTxtName, Except.ok ['h', 'i'], none⟩

/-- A `.txt` file whose read fails with a permission error. -/
def fileB : FileEntry := ⟨bTxtName, Except.error permDenied, none⟩

/-- A sample file system: the input directory exists and holds one
readable and one unreadable file. -/
def demoFS : FS := ⟨[origDir], [(origDir, [fileA, fileB])]⟩

set_option maxRecDepth 40000

theorem pyIsDigit_not_space {c : Char} (h : pyIsDigit c = true) :
    pyIsSpace c = false := by
  simp [pyIsDigit] at h
  simp [pyIsSpace]
  omega

theorem pyIsDigit_ne_newline {c : Char} (h : pyIsDigit c = true) :
    c ≠ '\n' := by
  intro hc
  subst hc
  simp [pyIsDigit] at h

theorem pyIsDigit_digitChar (d : Nat) : pyIsDigit (digitChar d) = true := by
  rcases d with _|_|_|_|_|_|_|_|_|d <;> rfl

theorem natCharsAux_digits (fuel n : Nat) (acc : List Char)
    (hacc : ∀ c ∈ acc, pyIsDigit c = true) :
    ∀ c ∈ natCharsAux fuel n acc, pyIsDigit c = true := by
  induction fuel generalizing n acc with
  | zero =>
      intro c hc
      rcases List.mem_cons.mp hc with h | h
      · exact h ▸ pyIsDigit_digitChar n
      · exact hacc _ h
  | succ fuel ih =>
      intro c hc
      by_cases h10 : n < 10
      · simp only [natCharsAux, if_pos h10] at hc
        rcases List.mem_cons.mp hc with h | h
        · exact h ▸ pyIsDigit_digitChar n
        · exact hacc _ h
      · simp only [natCharsAux, if_neg h10] at hc
        refine ih (n / 10) (digitChar (n % 10) :: acc) ?_ c hc
        intro d hd
        rcases List.mem_cons.mp hd with h | h
        · exact h ▸ pyIsDigit_digitChar (n % 10)
        · exact hacc _ h

theorem natChars_digits (n : Nat) :
    ∀ c ∈ natChars n, pyIsDigit c = true :=
  natCharsAux_digits n n [] (by intro c hc; cases hc)

theorem natCharsAux_ne_nil (fuel n : Nat) (acc : List Char) :
    natCharsAux fuel n acc ≠ [] := by
  induction fuel generalizing n acc with
  | zero => simp [natCharsAux]
  | succ fuel ih =>
      by_cases h10 : n < 10
      · simp [natCharsAux, if_pos h10]
      · simp only [natCharsAux, if_neg h10]
        exact ih (n / 10) (digitChar (n % 10) :: acc)

theorem natChars_ne_nil (n : Nat) : natChars n ≠ [] :=
  natCharsAux_ne_nil n n []

theorem splitLines_ne_nil (t : List Char) : splitLines t ≠ [] := by
  induction t with
  | nil => simp [splitLines]
  | cons c cs ih =>
      by_cases h : c = '\n'
      · simp [splitLines, h]
      · simp only [splitLines, if_neg h]
        cases hs : splitLines cs with
        | nil => simp
        | cons l ls => simp

theorem splitLines_newline_cons (x : List Char) :
    splitLines ('\n' :: x) = [] :: splitLines x := by
  simp [splitLines]

theorem splitLines_cons_of_ne {c : Char} (h : c ≠ '\n') (cs : List Char) :
    splitLines (c :: cs) =
      ((splitLines cs).headD [] |> (c :: ·)) :: (splitLines cs).tail := by
  simp only [splitLines, if_neg h]
  cases hs : splitLines cs with
  | nil => exact absurd hs (splitLines_ne_nil cs)
  | cons l ls => rfl

theorem splitLines_append (xs ys : List Char) (h : '\n' ∉ xs) :
    splitLines (xs ++ '\n' :: ys) = xs :: splitLines ys := by
  induction xs with
  | nil => simp [splitLines]
  | cons c cs ih =>
      have hc : c ≠ '\n' := by
        intro hc; exact h (by simp [hc])
      have hcs : '\n' ∉ cs := by
        intro hm; exact h (by simp [hm])
      rw [List.cons_append, splitLines_cons_of_ne hc, ih hcs]
      simp

theorem splitLines_no_newline (xs : List Char) (h : '\n' ∉ xs) :
    splitLines xs = [xs] := by
  induction xs with
  | nil => rfl
  | cons c cs ih =>
      have hc : c ≠ '\n' := by
        intro hc; exact h (by simp [hc])
      have hcs : '\n' ∉ cs := by
        intro hm; exact h (by simp [hm])
      simp only [splitLines, if_neg hc, ih hcs]

theorem joinLines_splitLines (t : List Char) :
    joinLines (splitLines t) = t := by
  induction t with
  | nil => rfl
  | cons c cs ih =>
      by_cases h : c = '\n'
      · subst h
        rw [splitLines_newline_cons]
        cases hs : splitLines cs with
        | nil => exact absurd hs (splitLines_ne_nil cs)
        | cons l ls =>
            rw [hs] at ih
            simp only [joinLines, List.nil_append]
            rw [← ih]
      · simp only [splitLines, if_neg h]
        cases hs : splitLines cs with
        | nil => exact absurd hs (splitLines_ne_nil cs)
        | cons l ls =>
            rw [hs] at ih
            cases ls with
            | nil => simp only [joinLines] at ih ⊢; rw [ih]
            | cons l2 ls2 =>
                simp only [joinLines, List.cons_append] at ih ⊢
                rw [ih]

theorem dropWhile_all_append (p : Char → Bool) (xs ys : List Char)
    (h : ∀ c ∈ xs, p c = true) :
    (xs ++ ys).dropWhile p = ys.dropWhile p := by
  induction xs with
  | nil => rfl
  | cons c cs ih =>
      have hc : p c = true := h c (by simp)
      simp only [List.cons_append, List.dropWhile_cons, hc, if_pos]
      exact ih (fun d hd => h d (by simp [hd]))

theorem dropWhile_cons_neg (p : Char → Bool) (c : Char) (cs : List Char)
    (h : p c = false) : (c :: cs).dropWhile p = c :: cs := by
  simp [List.dropWhile_cons, h]

theorem takeWhile_all_append_neg (p : Char → Bool) (xs : List Char)
    (y : Char) (ys : List Char) (hxs : ∀ c ∈ xs, p c = true)
    (hy : p y = false) :
    (xs ++ y :: ys).takeWhile p = xs := by
  induction xs with
  | nil => simp [List.takeWhile_cons, hy]
  | cons c cs ih =>
      have hc : p c = true := hxs c (by simp)
      simp only [List.cons_append, List.takeWhile_cons, hc, if_pos]
      rw [ih (fun d hd => hxs d (by simp [hd]))]

theorem takeWhile_all (p : Char → Bool) (xs : List Char)
    (h : ∀ c ∈ xs, p c = true) : xs.takeWhile p = xs := by
  induction xs with
  | nil => rfl
  | cons c cs ih =>
      have hc : p c = true := h c (by simp)
      simp only [List.takeWhile_cons, hc, if_pos]
      rw [ih (fun d hd => h d (by simp [hd]))]

theorem take_len_append {α : Type} (xs ys : List α) :
    (xs ++ ys).take xs.length = xs := by
  induction xs with
  | nil => rfl
  | cons c cs ih => simp [List.take, ih]

theorem drop_len_append {α : Type} (xs ys : List α) :
    (xs ++ ys).drop xs.length = ys := by
  induction xs with
  | nil => rfl
  | cons c cs ih => simp [List.drop, ih]

theorem foldl_applyStep_closed (ls : List (List Char)) (out : List Char)
    (a p : Nat) (h1 : 1 ≤ a) (h2 : a ≤ 25) :
    ls.foldl applyStep ⟨out, a, p⟩ =
      ⟨out ++ renderFrom a p (ls.filter keptLine),
       (a - 1 + (ls.filter keptLine).length) % 25 + 1,
       p + (a - 1 + (ls.filter keptLine).length) / 25⟩ := by
  induction ls generalizing out a p with
  | nil =>
      simp only [List.foldl_nil, List.filter_nil, renderFrom,
        List.append_nil, List.length_nil, Nat.add_zero]
      have ha : (a - 1) % 25 = a - 1 := Nat.mod_eq_of_lt (by omega)
      have hd : (a - 1) / 25 = 0 := Nat.div_eq_of_lt (by omega)
      rw [ha, hd]
      congr 1
      omega
  | cons l ls ih =>
      by_cases hb : l.all pyIsSpace
      · have hk : keptLine l = false := by simp [keptLine, hb]
        simp only [List.foldl_cons, applyStep, if_pos hb,
          List.filter_cons, hk]
        exact ih out a p h1 h2
      · have hk : keptLine l = true := by simp [keptLine, hb]
        simp only [List.foldl_cons, applyStep, if_neg hb,
          List.filter_cons, hk, if_pos]
        by_cases h25 : a = LINES_PER_PAGE
        · simp only [if_pos h25]
          rw [ih (out ++ slotChunk a l ++ pageBreakChunk p) 1 (p + 1)
            (by omega) (by omega)]
          have hLP : LINES_PER_PAGE = 25 := rfl
          subst h25
          simp only [renderFrom, if_pos rfl, hLP]
          congr 1
          · simp [List.append_assoc]
          · simp only [List.length_cons, hLP]
            have : 25 - 1 + ((ls.filter keptLine).length + 1) =
                (ls.filter keptLine).length + 25 := by omega
            rw [this, Nat.add_mod_right]
            omega
          · simp only [List.length_cons, hLP]
            have : 25 - 1 + ((ls.filter keptLine).length + 1) =
                (ls.filter keptLine).length + 25 := by omega
            rw [this, Nat.add_div_right _ (by omega)]
            have h0 : (1 : Nat) - 1 + (ls.filter keptLine).length =
                (ls.filter keptLine).length := by omega
            rw [h0]
            omega
        · have ha25 : a < 25 := by
            have : LINES_PER_PAGE = 25 := rfl
            omega
          simp only [if_neg h25]
          rw [ih (out ++ slotChunk a l) (a + 1) p (by omega) (by omega)]
          simp only [renderFrom, if_neg h25]
          congr 1
          · simp [List.append_assoc]
          · simp only [List.length_cons]
            congr 2
            omega
          · simp only [List.length_cons]
            congr 2
            omega

/-- Closed form of `apply_formatting`: header, rendered content lines,
and — iff the content-line count is not a multiple of 25 — padding and
a final footer.  The returned page count is `n / 25 + 1` in both
branches. -/
theorem apply_formatting_closed (t : List Char) :
    apply_formatting t =
      if (contentLines t).length % 25 = 0 then
        (header5 ++ renderFrom 1 1 (contentLines t),
         (contentLines t).length / 25 + 1)
      else
        (header5 ++ renderFrom 1 1 (contentLines t) ++
           padTo ((contentLines t).length % 25 + 1) ++
           finalFooter ((contentLines t).length / 25 + 1),
         (contentLines t).length / 25 + 1) := by
  have hfold := foldl_applyStep_closed (splitLines t) header5 1 1
    (by omega) (by omega)
  have hn : (1 : Nat) - 1 + ((splitLines t).filter keptLine).length =
      (contentLines t).length := by
    simp [contentLines]
  rw [hn] at hfold
  have hcl : (splitLines t).filter keptLine = contentLines t := rfl
  rw [hcl] at hfold
  set n := (contentLines t).length with hdefn
  unfold apply_formatting
  rw [hfold]
  by_cases h0 : n % 25 = 0
  · have hguard : ¬(1 < n % 25 + 1 ∧ n % 25 + 1 ≤ LINES_PER_PAGE) := by
      have : LINES_PER_PAGE = 25 := rfl
      omega
    simp only [if_neg hguard, if_pos h0]
    rw [Nat.add_comm 1 (n / 25)]
  · have hlt : n % 25 < 25 := Nat.mod_lt _ (by omega)
    have hguard : 1 < n % 25 + 1 ∧ n % 25 + 1 ≤ LINES_PER_PAGE := by
      have : LINES_PER_PAGE = 25 := rfl
      omega
    simp only [if_pos hguard, if_neg h0]
    rw [Nat.add_comm 1 (n / 25)]

theorem LINES_PER_PAGE_eq : LINES_PER_PAGE = 25 := rfl

theorem renderFrom_cons (a p : Nat) (l : List Char)
    (ls : List (List Char)) :
    renderFrom a p (l :: ls) =
      slotChunk a l ++
        (if a = LINES_PER_PAGE then
          pageBreakChunk p ++ renderFrom 1 (p + 1) ls
        else renderFrom (a + 1) p ls) := rfl

theorem slotsFrom_cons (k : Nat) (l : List Char) (ls : List (List Char)) :
    slotsFrom k (l :: ls) = slotChunk k l ++ slotsFrom (k + 1) ls := rfl

theorem renderFrom_no_break (cs : List (List Char)) (a p : Nat)
    (h : a + cs.length ≤ 25) :
    renderFrom a p cs = slotsFrom a cs := by
  induction cs generalizing a p with
  | nil => rfl
  | cons l ls ih =>
      have h25 : a ≠ LINES_PER_PAGE := by
        rw [LINES_PER_PAGE_eq]
        simp only [List.length_cons] at h
        omega
      simp only [renderFrom, slotsFrom, if_neg h25]
      rw [ih (a + 1) p (by simp only [List.length_cons] at h; omega)]

theorem renderFrom_full (cs : List (List Char)) (a p : Nat)
    (h : a + cs.length = 26) (hne : cs ≠ []) :
    renderFrom a p cs = slotsFrom a cs ++ pageBreakChunk p := by
  induction cs generalizing a p with
  | nil => exact absurd rfl hne
  | cons l ls ih =>
      cases ls with
      | nil =>
          have ha : a = LINES_PER_PAGE := by
            rw [LINES_PER_PAGE_eq]
            simp only [List.length_cons, List.length_nil] at h
            omega
          simp only [renderFrom, slotsFrom, if_pos ha, List.append_nil,
            List.append_assoc]
      | cons l2 ls2 =>
          have h25 : a ≠ LINES_PER_PAGE := by
            rw [LINES_PER_PAGE_eq]
            simp only [List.length_cons] at h
            omega
          rw [renderFrom_cons, if_neg h25, slotsFrom_cons,
            ih (a + 1) p
              (by simp only [List.length_cons] at h ⊢; omega)
              (by intro hc; cases hc)]
          simp [List.append_assoc]

theorem renderFrom_append (xs ys : List (List Char)) (a p : Nat)
    (h1 : 1 ≤ a) (h2 : a ≤ 25) :
    renderFrom a p (xs ++ ys) =
      renderFrom a p xs ++
        renderFrom ((a - 1 + xs.length) % 25 + 1)
          (p + (a - 1 + xs.length) / 25) ys := by
  induction xs generalizing a p with
  | nil =>
      have ha : (a - 1) % 25 + 1 = a := by
        have := Nat.mod_eq_of_lt (show a - 1 < 25 by omega)
        omega
      have hd : p + (a - 1) / 25 = p := by
        have := Nat.div_eq_of_lt (show a - 1 < 25 by omega)
        omega
      simp only [List.nil_append, renderFrom, List.length_nil,
        Nat.add_zero, ha, hd]
  | cons l ls ih =>
      rw [List.cons_append]
      by_cases h25 : a = LINES_PER_PAGE
      · rw [renderFrom_cons, if_pos h25, renderFrom_cons, if_pos h25,
          ih 1 (p + 1) (by omega) (by omega)]
        rw [LINES_PER_PAGE_eq] at h25
        subst h25
        simp only [List.length_cons]
        have hm : 25 - 1 + (ls.length + 1) = ls.length + 25 := by omega
        have h1m : (1 : Nat) - 1 + ls.length = ls.length := by omega
        rw [hm, h1m, Nat.add_mod_right, Nat.add_div_right _ (by omega)]
        have hpp : p + 1 + ls.length / 25 = p + (ls.length / 25 + 1) := by
          omega
        rw [hpp]
        simp [List.append_assoc]
      · have ha25 : a < 25 := by
          rw [LINES_PER_PAGE_eq] at h25
          omega
        rw [renderFrom_cons, if_neg h25, renderFrom_cons, if_neg h25,
          ih (a + 1) p (by omega) (by omega)]
        simp only [List.length_cons]
        have hm : a + 1 - 1 + ls.length = a - 1 + (ls.length + 1) := by
          omega
        rw [hm]
        simp [List.append_assoc]

theorem classify_nil : classify [] = none := rfl

theorem matchNumbered_prefixed (ws ds R : List Char)
    (hws : ∀ c ∈ ws, pyIsSpace c = true)
    (hne : ds ≠ []) (hds : ∀ c ∈ ds, pyIsDigit c = true) :
    matchNumbered (ws ++ ds ++ sep4 ++ R) = some R := by
  obtain ⟨d, ds', hcons⟩ : ∃ d ds', ds = d :: ds' := by
    cases ds with
    | nil => exact absurd rfl hne
    | cons d ds' => exact ⟨d, ds', rfl⟩
  have hd : pyIsDigit d = true := hds d (by rw [hcons]; simp)
  have hdrop : (ws ++ ds ++ sep4 ++ R).dropWhile pyIsSpace =
      ds ++ (sep4 ++ R) := by
    rw [List.append_assoc, List.append_assoc,
      dropWhile_all_append pyIsSpace ws _ hws, hcons, List.cons_append,
      dropWhile_cons_neg pyIsSpace d _ (pyIsDigit_not_space hd)]
  have htake : (ds ++ (sep4 ++ R)).takeWhile pyIsDigit = ds := by
    have : ds ++ (sep4 ++ R) = ds ++ ' ' :: ([' ', ' ', ' '] ++ R) := by
      simp [sep4]
    rw [this]
    exact takeWhile_all_append_neg pyIsDigit ds ' ' _ hds (by rfl)
  simp only [matchNumbered, hdrop, htake]
  rw [if_neg hne, drop_len_append]
  have ht4 : (sep4 ++ R).take 4 = sep4 := by
    have h4 : (4 : Nat) = sep4.length := rfl
    rw [h4, take_len_append]
  have hd4 : (sep4 ++ R).drop 4 = R := by
    have h4 : (4 : Nat) = sep4.length := rfl
    rw [h4, drop_len_append]
  rw [if_pos ht4, hd4]

theorem classify_prefixed (ws ds R : List Char)
    (hws : ∀ c ∈ ws, pyIsSpace c = true)
    (hne : ds ≠ []) (hds : ∀ c ∈ ds, pyIsDigit c = true) :
    classify (ws ++ ds ++ sep4 ++ R) = some R := by
  obtain ⟨d, ds', hcons⟩ : ∃ d ds', ds = d :: ds' := by
    cases ds with
    | nil => exact absurd rfl hne
    | cons d ds' => exact ⟨d, ds', rfl⟩
  have hd : pyIsDigit d = true := hds d (by rw [hcons]; simp)
  have hblank : ¬((ws ++ ds ++ sep4 ++ R).all pyIsSpace = true) := by
    intro hall
    rw [List.all_eq_true] at hall
    have hmem : d ∈ ws ++ ds ++ sep4 ++ R := by
      rw [hcons]; simp
    have := hall d hmem
    rw [pyIsDigit_not_space hd] at this
    exact Bool.false_ne_true this
  unfold classify
  rw [if_neg hblank, matchNumbered_prefixed ws ds R hws hne hds]

theorem classify_numLine (k : Nat) (l : List Char) :
    classify (numLine k l) = some l := by
  have h : numLine k l =
      List.replicate (11 - (natChars k).length) ' ' ++ natChars k ++
        sep4 ++ l := by
    simp [numLine, rjust, List.append_assoc]
  rw [h]
  exact classify_prefixed _ _ _
    (by intro c hc; rw [List.mem_replicate] at hc; rw [hc.2]; rfl)
    (natChars_ne_nil k) (natChars_digits k)

theorem classify_spaces_digits (m n : Nat) :
    classify (List.replicate m ' ' ++ natChars n) = none := by
  obtain ⟨d, ds', hcons⟩ : ∃ d ds', natChars n = d :: ds' := by
    cases h : natChars n with
    | nil => exact absurd h (natChars_ne_nil n)
    | cons d ds' => exact ⟨d, ds', rfl⟩
  have hd : pyIsDigit d = true := natChars_digits n d (by rw [hcons]; simp)
  have hblank : ¬((List.replicate m ' ' ++ natChars n).all pyIsSpace
      = true) := by
    intro hall
    rw [List.all_eq_true] at hall
    have hmem : d ∈ List.replicate m ' ' ++ natChars n := by
      rw [hcons]; simp
    have := hall d hmem
    rw [pyIsDigit_not_space hd] at this
    exact Bool.false_ne_true this
  have hdrop : (List.replicate m ' ' ++ natChars n).dropWhile pyIsSpace =
      natChars n := by
    rw [dropWhile_all_append pyIsSpace _ _
      (by intro c hc; rw [List.mem_replicate] at hc; rw [hc.2]; rfl),
      hcons, dropWhile_cons_neg pyIsSpace d _ (pyIsDigit_not_space hd)]

  have htake : (natChars n).takeWhile pyIsDigit = natChars n :=
    takeWhile_all pyIsDigit _ (natChars_digits n)
  have hmatch : matchNumbered (List.replicate m ' ' ++ natChars n)
      = none := by
    simp only [matchNumbered, hdrop, htake]
    rw [if_neg (natChars_ne_nil n), List.drop_length]
    rw [if_neg (by simp [sep4])]
  have hfoot : isFooter (List.replicate m ' ' ++ natChars n) = true := by
    simp only [isFooter, hdrop, htake]
    rw [List.drop_length]
    simp [natChars_ne_nil n]
  unfold classify
  rw [if_neg hblank, hmatch, if_pos hfoot]

theorem classify_rjust_natChars (w n : Nat) :
    classify (rjust w (natChars n)) = none :=
  classify_spaces_digits (w - (natChars n).length) n

theorem newline_not_mem_rjust_natChars (w n : Nat) :
    '\n' ∉ rjust w (natChars n) := by
  intro hmem
  rw [rjust, List.mem_append] at hmem
  rcases hmem with h | h
  · rw [List.mem_replicate] at h
    exact absurd h.2.symm (by decide)
  · exact pyIsDigit_ne_newline (natChars_digits n _ h) rfl

theorem newline_not_mem_numLine (k : Nat) (l : List Char)
    (hl : '\n' ∉ l) : '\n' ∉ numLine k l := by
  intro hmem
  rw [numLine, List.append_assoc, List.mem_append] at hmem
  rcases hmem with h | h
  · exact newline_not_mem_rjust_natChars 11 k h
  · rw [List.mem_append] at h
    rcases h with h | h
    · rw [sep4] at h
      simp at h
    · exact hl h

theorem filterMap_classify_line (x : List Char) (hx : '\n' ∉ x)
    (ys : List Char) :
    (splitLines (x ++ '\n' :: ys)).filterMap classify =
      (classify x).toList ++ (splitLines ys).filterMap classify := by
  rw [splitLines_append x ys hx, List.filterMap_cons]
  cases classify x <;> simp

theorem filterMap_classify_newline (ys : List Char) :
    (splitLines ('\n' :: ys)).filterMap classify =
      (splitLines ys).filterMap classify := by
  rw [splitLines_newline_cons, List.filterMap_cons, classify_nil]

theorem header5_eq : header5 = ['\n', '\n', '\n', '\n', '\n'] := rfl

theorem filterMap_classify_header5 (x : List Char) :
    (splitLines (header5 ++ x)).filterMap classify =
      (splitLines x).filterMap classify := by
  rw [header5_eq]
  simp only [List.cons_append, List.nil_append]
  rw [filterMap_classify_newline, filterMap_classify_newline,
    filterMap_classify_newline, filterMap_classify_newline,
    filterMap_classify_newline]

theorem filterMap_classify_slotChunk (k : Nat) (l : List Char)
    (hl : '\n' ∉ l) (ys : List Char) :
    (splitLines (slotChunk k l ++ ys)).filterMap classify =
      l :: (splitLines ys).filterMap classify := by
  have he : slotChunk k l ++ ys = numLine k l ++ '\n' :: ('\n' :: ys) := by
    simp [slotChunk, List.append_assoc]
  rw [he, filterMap_classify_line _ (newline_not_mem_numLine k l hl),
    classify_numLine, filterMap_classify_newline]
  rfl

theorem filterMap_classify_pageBreakChunk (p : Nat) (ys : List Char) :
    (splitLines (pageBreakChunk p ++ ys)).filterMap classify =
      (splitLines ys).filterMap classify := by
  have he : pageBreakChunk p ++ ys =
      '\n' :: (rjust 72 (natChars p) ++
        '\n' :: ('\x0c' :: ('\n' :: ('\n' :: ('\n' :: ('\n' ::
          ('\n' :: ys))))))) := by
    simp [pageBreakChunk, header5_eq, List.append_assoc]
  rw [he, filterMap_classify_newline,
    filterMap_classify_line _ (newline_not_mem_rjust_natChars 72 p),
    classify_rjust_natChars]
  have hff : ('\x0c' :: ('\n' :: ('\n' :: ('\n' :: ('\n' :: ('\n' ::
      ys)))))) = ['\x0c'] ++ '\n' :: ('\n' :: ('\n' :: ('\n' :: ('\n' ::
      ys)))) := rfl
  rw [hff, filterMap_classify_line ['\x0c'] (by decide),
    filterMap_classify_newline, filterMap_classify_newline,
    filterMap_classify_newline, filterMap_classify_newline]
  have hcf : classify ['\x0c'] = none := by decide
  rw [hcf]
  rfl

theorem strip_renderFrom (cs : List (List Char)) (a p : Nat)
    (ys : List Char) (h : ∀ l ∈ cs, '\n' ∉ l) :
    (splitLines (renderFrom a p cs ++ ys)).filterMap classify =
      cs ++ (splitLines ys).filterMap classify := by
  induction cs generalizing a p ys with
  | nil => simp [renderFrom]
  | cons l ls ih =>
      have hl : '\n' ∉ l := h l (by simp)
      have hls : ∀ m ∈ ls, '\n' ∉ m := fun m hm => h m (by simp [hm])
      rw [renderFrom_cons]
      by_cases h25 : a = LINES_PER_PAGE
      · rw [if_pos h25, List.append_assoc,
          filterMap_classify_slotChunk a l hl, List.append_assoc,
          filterMap_classify_pageBreakChunk, ih 1 (p + 1) ys hls]
        rfl
      · rw [if_neg h25, List.append_assoc,
          filterMap_classify_slotChunk a l hl, ih (a + 1) p ys hls]
        rfl

theorem classify_renderPad_line (k : Nat) :
    classify (rjust 11 (natChars k)) = none :=
  classify_rjust_natChars 11 k

theorem strip_padToAux (fuel k : Nat) (ys : List Char) :
    (splitLines (padToAux fuel k ++ ys)).filterMap classify =
      (splitLines ys).filterMap classify := by
  induction fuel generalizing k with
  | zero => simp [padToAux]
  | succ fuel ih =>
      by_cases hk : k ≤ LINES_PER_PAGE
      · have he : padToAux (fuel + 1) k ++ ys =
            rjust 11 (natChars k) ++
              '\n' :: ('\n' :: (padToAux fuel (k + 1) ++ ys)) := by
          simp [padToAux, if_pos hk, renderPad, List.append_assoc]
        rw [he,
          filterMap_classify_line _ (newline_not_mem_rjust_natChars 11 k),
          classify_renderPad_line, filterMap_classify_newline, ih (k + 1)]
        rfl
      · simp [padToAux, if_neg hk]

theorem strip_padTo (k : Nat) (ys : List Char) :
    (splitLines (padTo k ++ ys)).filterMap classify =
      (splitLines ys).filterMap classify :=
  strip_padToAux _ k ys

theorem strip_finalFooter (p : Nat) :
    (splitLines (finalFooter p)).filterMap classify = [] := by
  rw [finalFooter, filterMap_classify_newline,
    splitLines_no_newline _ (newline_not_mem_rjust_natChars 72 p),
    List.filterMap_cons, classify_rjust_natChars]
  rfl

theorem splitLines_joinLines_of_ne_nil (lines : List (List Char))
    (hne : lines ≠ []) (hn : ∀ l ∈ lines, '\n' ∉ l) :
    splitLines (joinLines lines) = lines := by
  induction lines with
  | nil => exact absurd rfl hne
  | cons l ls ih =>
      cases ls with
      | nil =>
          simp only [joinLines]
          exact splitLines_no_newline l (hn l (by simp))
      | cons l2 ls2 =>
          have hj : joinLines (l :: l2 :: ls2) =
              l ++ '\n' :: joinLines (l2 :: ls2) := rfl
          rw [hj, splitLines_append l _ (hn l (by simp)),
            ih (by intro hc; cases hc)
              (fun m hm => hn m (List.mem_cons_of_mem l hm))]

theorem filter_keptLine_all (lines : List (List Char))
    (hb : ∀ l ∈ lines, ¬(l.all pyIsSpace = true)) :
    lines.filter keptLine = lines := by
  induction lines with
  | nil => rfl
  | cons m ms ihm =>
      have hm : keptLine m = true := by
        unfold keptLine
        cases hall : m.all pyIsSpace with
        | false => rfl
        | true => exact absurd hall (hb m (by simp))
      rw [List.filter_cons, if_pos hm,
        ihm (fun x hx => hb x (List.mem_cons_of_mem m hx))]

theorem filter_keptLine_none (L : List (List Char))
    (h : ∀ l ∈ L, l.all pyIsSpace = true) : L.filter keptLine = [] := by
  induction L with
  | nil => rfl
  | cons l ls ih =>
      have hl : keptLine l = false := by
        simp [keptLine, h l (by simp)]
      rw [List.filter_cons, if_neg (by simp [hl]),
        ih (fun m hm => h m (List.mem_cons_of_mem l hm))]

theorem contentLines_joinLines (lines : List (List Char))
    (hn : ∀ l ∈ lines, '\n' ∉ l)
    (hb : ∀ l ∈ lines, ¬(l.all pyIsSpace = true)) :
    contentLines (joinLines lines) = lines := by
  cases lines with
  | nil => rfl
  | cons l ls =>
      unfold contentLines
      rw [splitLines_joinLines_of_ne_nil (l :: ls)
        (by intro hc; cases hc) hn]
      exact filter_keptLine_all (l :: ls) hb

theorem batchLoop_closed (inputDir outputDir : String)
    (files : List FileEntry) (acc : BatchResult) :
    batchLoop inputDir outputDir files acc =
      ⟨acc.processed ++ (files.filter fileOutcomeOk).map
          (fun f => ⟨pathJoin inputDir f.name, pathJoin outputDir f.name⟩),
       acc.failed ++ (files.filter (fun f => !fileOutcomeOk f)).map
          (fun f => ⟨pathJoin inputDir f.name, fileError f⟩),
       acc.skipped⟩ := by
  induction files generalizing acc with
  | nil => simp [batchLoop]
  | cons f rest ih =>
      cases hr : f.readResult with
      | error e =>
          have hok : fileOutcomeOk f = false := by
            simp [fileOutcomeOk, hr]
          have herr : fileError f = e := by
            simp [fileError, hr]
          simp only [batchLoop, processOne, hr, ih]
          simp [List.filter_cons, hok, herr, List.append_assoc]
      | ok content =>
          cases hw : f.writeError with
          | some e =>
              have hok : fileOutcomeOk f = false := by
                simp [fileOutcomeOk, hr, hw]
              have herr : fileError f = e := by
                simp [fileError, hr, hw]
              simp only [batchLoop, processOne, hr, hw, ih]
              simp [List.filter_cons, hok, herr, List.append_assoc]
          | none =>
              have hok : fileOutcomeOk f = true := by
                simp [fileOutcomeOk, hr, hw]
              simp only [batchLoop, processOne, hr, hw, ih]
              simp [List.filter_cons, hok, List.append_assoc]

theorem mkdirParents_txtFiles (fs : FS) (d : String) :
    (mkdirParents fs d).txtFiles = fs.txtFiles := by
  unfold mkdirParents
  by_cases hd : d ∈ fs.dirs
  · rw [if_pos hd]
  · rw [if_neg hd]

theorem mem_mkdirParents_dirs (fs : FS) (d : String) :
    d ∈ (mkdirParents fs d).dirs := by
  unfold mkdirParents
  by_cases hd : d ∈ fs.dirs
  · rw [if_pos hd]; exact hd
  · rw [if_neg hd]; simp

/-- Claim C10: for every input text, the page count returned by
`apply_formatting` is `n / 25 + 1`, where `n` is the number of
non-blank lines of the input; in particular it depends only on `n`,
never on the lines' contents. -/
theorem apply_formatting_page_count (t : List Char) :
    (apply_formatting t).2 = (contentLines t).length / 25 + 1 := by
  rw [apply_formatting_closed t]
  by_cases h : (contentLines t).length % 25 = 0
  · rw [if_pos h]
  · rw [if_neg h]

/-- Claim C8: on an input all of whose lines are blank (the empty
string included), `apply_formatting` emits exactly the 5-blank-line
header and nothing else, and returns page count 1. -/
theorem apply_formatting_all_blank (t : List Char)
    (h : ∀ l ∈ splitLines t, l.all pyIsSpace = true) :
    apply_formatting t = (header5, 1) := by
  have hcl : contentLines t = [] := by
    unfold contentLines
    exact filter_keptLine_none (splitLines t) h
  rw [apply_formatting_closed t, hcl]
  simp [renderFrom]

/-- Witness for C8 at the empty input text. -/
theorem apply_formatting_all_blank_witness :
    (∀ l ∈ splitLines [], l.all pyIsSpace = true) ∧
    apply_formatting [] = (header5, 1) :=
  ⟨by decide, apply_formatting_all_blank [] (by decide)⟩

/-- Counterexample to claim C2 as stated: an input with exactly 25
non-blank content lines for which `apply_formatting` returns page
count 2 (not 1) and whose output text does contain a form-feed
page-break marker. -/
theorem apply_formatting_25_lines_counterexample :
    (contentLines (joinLines (List.replicate 25 ['a']))).length = 25 ∧
    (apply_formatting (joinLines (List.replicate 25 ['a']))).2 = 2 ∧
    '\x0c' ∈ (apply_formatting (joinLines (List.replicate 25 ['a']))).1
    := by
  refine ⟨by decide, by decide, by decide⟩

/-- Claim C2, amended to the code's behavior: on every input with
exactly 25 non-blank content lines, `apply_formatting` returns page
count 2, and the text is the header, the 25 numbered slots, and one
footer carrying page number 1 followed by a form-feed marker and a
trailing (empty) next-page header; no number-only padding lines are
emitted. -/
theorem apply_formatting_25_lines (t : List Char)
    (h : (contentLines t).length = 25) :
    apply_formatting t =
      (header5 ++ slotsFrom 1 (contentLines t) ++ pageBreakChunk 1, 2)
    := by
  rw [apply_formatting_closed t, h]
  rw [if_pos (by norm_num)]
  rw [renderFrom_full (contentLines t) 1 1 (by rw [h])
    (by intro hc; rw [hc] at h; simp at h)]
  rw [← List.append_assoc]

/-- Witness for C2 (amended) at 25 copies of the line `a`. -/
theorem apply_formatting_25_lines_witness :
    (contentLines (joinLines (List.replicate 25 ['a']))).length = 25 ∧
    apply_formatting (joinLines (List.replicate 25 ['a'])) =
      (header5 ++
        slotsFrom 1 (contentLines (joinLines (List.replicate 25 ['a'])))
        ++ pageBreakChunk 1, 2) :=
  ⟨by decide, apply_formatting_25_lines _ (by decide)⟩

/-- Claim C5: on every input with exactly 26 non-blank content lines,
`apply_formatting` returns page count 2, and the 26th content line is
rendered as the first numbered slot of page 2 — immediately after the
page-1 slots, the page-1 footer and the page-2 header — carrying line
number 1, followed by padding slots 2–25 and the final footer of
page 2. -/
theorem apply_formatting_26_lines (t : List Char)
    (h : (contentLines t).length = 26) :
    apply_formatting t =
      (header5 ++ slotsFrom 1 ((contentLines t).take 25) ++
         pageBreakChunk 1 ++ slotsFrom 1 ((contentLines t).drop 25) ++
         padTo 2 ++ finalFooter 2, 2) := by
  rw [apply_formatting_closed t, h]
  rw [if_neg (by norm_num)]
  have hsplit : contentLines t =
      (contentLines t).take 25 ++ (contentLines t).drop 25 :=
    (List.take_append_drop 25 (contentLines t)).symm
  have hlt : ((contentLines t).take 25).length = 25 := by
    rw [List.length_take, h]
    decide
  have hld : ((contentLines t).drop 25).length = 1 := by
    rw [List.length_drop, h]
  rw [show renderFrom 1 1 (contentLines t) =
      renderFrom 1 1 ((contentLines t).take 25 ++
        (contentLines t).drop 25) by rw [← hsplit]]
  rw [renderFrom_append _ _ 1 1 (by omega) (by omega), hlt]
  have hc1 : (1 - 1 + 25) % 25 + 1 = 1 := by norm_num
  have hc2 : 1 + (1 - 1 + 25) / 25 = 2 := by norm_num
  rw [hc1, hc2]
  rw [renderFrom_full _ 1 1 (by rw [hlt])
    (by intro hc; rw [hc] at hlt; simp at hlt)]
  rw [renderFrom_no_break _ 1 2 (by rw [hld]; omega)]
  simp [List.append_assoc]

/-- Witness for C5 at 26 copies of the line `b`. -/
theorem apply_formatting_26_lines_witness :
    (contentLines (joinLines (List.replicate 26 ['b']))).length = 26 ∧
    apply_formatting (joinLines (List.replicate 26 ['b'])) =
      (header5 ++
        slotsFrom 1
          ((contentLines (joinLines (List.replicate 26 ['b']))).take 25)
        ++ pageBreakChunk 1 ++
        slotsFrom 1
          ((contentLines (joinLines (List.replicate 26 ['b']))).drop 25)
        ++ padTo 2 ++ finalFooter 2, 2) :=
  ⟨by decide, apply_formatting_26_lines _ (by decide)⟩

/-- Claim C7: on every input with exactly 3 non-blank content lines,
`apply_formatting` produces a single page (page count 1): the header,
slots 1–3 carrying the three content lines, number-only padding slots
4–25 (each a right-justified number followed by a blank line), and
exactly one final footer. -/
theorem apply_formatting_3_lines (t : List Char)
    (h : (contentLines t).length = 3) :
    apply_formatting t =
      (header5 ++ slotsFrom 1 (contentLines t) ++ padTo 4 ++
        finalFooter 1, 1) := by
  rw [apply_formatting_closed t, h]
  rw [if_neg (by norm_num)]
  rw [renderFrom_no_break _ _ _ (by rw [h]; omega)]

/-- Witness for C7 at the three lines `x`, `y`, `z`. -/
theorem apply_formatting_3_lines_witness :
    (contentLines (joinLines [['x'], ['y'], ['z']])).length = 3 ∧
    apply_formatting (joinLines [['x'], ['y'], ['z']]) =
      (header5 ++
        slotsFrom 1 (contentLines (joinLines [['x'], ['y'], ['z']])) ++
        padTo 4 ++ finalFooter 1, 1) :=
  ⟨by decide, apply_formatting_3_lines _ (by decide)⟩

theorem filterMap_classify_plain (L : List (List Char)) :
    (∀ l ∈ L, ¬(l.all pyIsSpace = true) ∧ matchNumbered l = none ∧
      isFooter l = false) → L.filterMap classify = L := by
  induction L with
  | nil => intro _; rfl
  | cons l ls ih =>
      intro hL
      obtain ⟨h1, h2, h3⟩ := hL l (by simp)
      have hc : classify l = some l := by
        unfold classify
        rw [if_neg h1, h2]
        simp [h3]
      rw [List.filterMap_cons, hc,
        ih (fun m hm => hL m (List.mem_cons_of_mem l hm))]

/-- Claim C1: stripping the output of pagination recovers the input
lines exactly: for every sequence of lines, each non-blank and not
consisting solely of whitespace and digits, `strip_formatting` applied
to the text component of `apply_formatting` of their join returns
their join — same lines, same order, internal whitespace preserved
character for character. -/
theorem strip_apply_round_trip (lines : List (List Char))
    (hn : ∀ l ∈ lines, '\n' ∉ l)
    (hb : ∀ l ∈ lines, ¬(l.all pyIsSpace = true))
    (_hd : ∀ l ∈ lines,
      ¬(l.all (fun c => pyIsSpace c || pyIsDigit c) = true)) :
    strip_formatting (apply_formatting (joinLines lines)).1 =
      joinLines lines := by
  have hcl : contentLines (joinLines lines) = lines :=
    contentLines_joinLines lines hn hb
  have hempty : (splitLines ([] : List Char)).filterMap classify = [] :=
    rfl
  rw [apply_formatting_closed (joinLines lines), hcl]
  by_cases h0 : lines.length % 25 = 0
  · rw [if_pos h0]
    show strip_formatting (header5 ++ renderFrom 1 1 lines) =
      joinLines lines
    unfold strip_formatting
    rw [filterMap_classify_header5,
      ← List.append_nil (renderFrom 1 1 lines),
      strip_renderFrom lines 1 1 [] hn, hempty, List.append_nil]
  · rw [if_neg h0]
    show strip_formatting (header5 ++ renderFrom 1 1 lines ++
      padTo (lines.length % 25 + 1) ++
      finalFooter (lines.length / 25 + 1)) = joinLines lines
    unfold strip_formatting
    rw [List.append_assoc, List.append_assoc,
      filterMap_classify_header5, strip_renderFrom lines 1 1 _ hn,
      strip_padTo, strip_finalFooter, List.append_nil]

/-- Witness for C1 at the two lines `Q` and ` A` (the second with
internal leading whitespace). -/
theorem strip_apply_round_trip_witness :
    ((∀ l ∈ [['Q'], [' ', 'A']], '\n' ∉ l) ∧
     (∀ l ∈ [['Q'], [' ', 'A']], ¬(l.all pyIsSpace = true)) ∧
     (∀ l ∈ [['Q'], [' ', 'A']],
       ¬(l.all (fun c => pyIsSpace c || pyIsDigit c) = true))) ∧
    strip_formatting
        (apply_formatting (joinLines [['Q'], [' ', 'A']])).1 =
      joinLines [['Q'], [' ', 'A']] :=
  ⟨⟨by decide, by decide, by decide⟩,
   strip_apply_round_trip [['Q'], [' ', 'A']]
     (by decide) (by decide) (by decide)⟩

/-- Counterexample to claim C4 as stated: `strip_formatting` is not
idempotent on every string.  On the single line `1` + four spaces +
`12`, the first strip keeps the remainder `12`, and the second strip
discards that remainder as a page footer. -/
theorem strip_formatting_not_idempotent :
    strip_formatting (strip_formatting
        ['1', ' ', ' ', ' ', ' ', '1', '2']) ≠
      strip_formatting ['1', ' ', ' ', ' ', ' ', '1', '2'] := by
  decide

/-- Claim C4, amended: `strip_formatting` is the identity — and hence
idempotent — on text containing no formatting decoration, i.e. whose
every line is non-blank, does not match the number-prefix pattern, and
is not whitespace-and-digits only.  (On arbitrary strings idempotence
fails, since a stripped remainder can itself look like a numbered or
footer line.) -/
theorem strip_formatting_plain_identity (t : List Char)
    (h : ∀ l ∈ splitLines t, ¬(l.all pyIsSpace = true) ∧
      matchNumbered l = none ∧ isFooter l = false) :
    strip_formatting t = t ∧
      strip_formatting (strip_formatting t) = strip_formatting t := by
  have hid : strip_formatting t = t := by
    unfold strip_formatting
    rw [filterMap_classify_plain (splitLines t) h, joinLines_splitLines]
  exact ⟨hid, by rw [hid, hid]⟩

/-- Witness for C4 (amended) at the plain line `Hello`. -/
theorem strip_formatting_plain_identity_witness :
    (∀ l ∈ splitLines ['H', 'e', 'l', 'l', 'o'],
      ¬(l.all pyIsSpace = true) ∧ matchNumbered l = none ∧
        isFooter l = false) ∧
    (strip_formatting ['H', 'e', 'l', 'l', 'o'] =
        ['H', 'e', 'l', 'l', 'o'] ∧
      strip_formatting (strip_formatting ['H', 'e', 'l', 'l', 'o']) =
        strip_formatting ['H', 'e', 'l', 'l', 'o']) :=
  ⟨by decide, strip_formatting_plain_identity _ (by decide)⟩

/-- Claim C6: a line of the shape optional whitespace, one or more
digits, exactly four spaces, remainder `R` is classified by
`strip_formatting`'s per-line classifier under the numbered-content
rule — its remainder `R` is kept, even when `R` is empty or digit-only
— and the line is never discarded as a page footer. -/
theorem strip_numbered_rule_priority (ws ds R : List Char)
    (hws : ∀ c ∈ ws, pyIsSpace c = true) (hne : ds ≠ [])
    (hds : ∀ c ∈ ds, pyIsDigit c = true) :
    classify (ws ++ ds ++ sep4 ++ R) = some R :=
  classify_prefixed ws ds R hws hne hds

/-- Witness for C6 at the line with one leading space, the digit `7`,
the four-space separator, and an empty remainder (the footer-shaped
edge case). -/
theorem strip_numbered_rule_priority_witness :
    ((∀ c ∈ [' '], pyIsSpace c = true) ∧ (['7'] : List Char) ≠ [] ∧
      (∀ c ∈ ['7'], pyIsDigit c = true)) ∧
    classify ([' '] ++ ['7'] ++ sep4 ++ []) = some [] :=
  ⟨⟨by decide, by decide, by decide⟩,
   strip_numbered_rule_priority [' '] ['7'] []
     (by decide) (by decide) (by decide)⟩

theorem filesIn_mkdirParents (fs : FS) (d x : String) :
    (mkdirParents fs d).filesIn x = fs.filesIn x := by
  unfold FS.filesIn
  rw [mkdirParents_txtFiles]

/-- Counterexample to claim C3 as stated: on an empty file system,
calling the batch operation with a missing input directory does raise
the distinguished directory-not-found error, but the file system is
not unchanged — the output directory, absent beforehand, has been
created by the time the error is raised. -/
theorem batch_missing_input_dir_counterexample :
    (batch_strip_formatting (FS.mk [] []) origDir strippedDir).2 =
      Except.error (BatchError.dirNotFound origDir) ∧
    strippedDir ∈
      (batch_strip_formatting (FS.mk [] []) origDir strippedDir).1.dirs ∧
    strippedDir ∉ (FS.mk [] []).dirs := by
  refine ⟨by decide, by decide, by decide⟩

/-- Claim C3, amended: when the input directory does not exist (and is
not the output directory itself, which `mkdir` would create first),
the batch operation fails with the distinguished directory-not-found
error, but only after creating the output directory; at the moment of
failure the files are untouched and the output directory exists. -/
theorem batch_missing_input_dir (fs : FS) (inputDir outputDir : String)
    (h1 : inputDir ∉ fs.dirs) (h2 : inputDir ≠ outputDir) :
    batch_strip_formatting fs inputDir outputDir =
      (mkdirParents fs outputDir,
       Except.error (BatchError.dirNotFound inputDir)) ∧
    (mkdirParents fs outputDir).txtFiles = fs.txtFiles ∧
    outputDir ∈ (mkdirParents fs outputDir).dirs := by
  have hnotin : inputDir ∉ (mkdirParents fs outputDir).dirs := by
    unfold mkdirParents
    by_cases hd : outputDir ∈ fs.dirs
    · rw [if_pos hd]; exact h1
    · rw [if_neg hd]
      intro hmem
      rcases List.mem_cons.mp hmem with h | h
      · exact h2 h
      · exact h1 h
  refine ⟨?_, mkdirParents_txtFiles fs outputDir,
    mem_mkdirParents_dirs fs outputDir⟩
  unfold batch_strip_formatting
  rw [if_neg hnotin]

/-- Witness for C3 (amended) on a file system holding only an
unrelated directory. -/
theorem batch_missing_input_dir_witness :
    (origDir ∉ (FS.mk [strippedDir] []).dirs ∧
      origDir ≠ strippedDir) ∧
    (batch_strip_formatting (FS.mk [strippedDir] []) origDir
        strippedDir =
      (mkdirParents (FS.mk [strippedDir] []) strippedDir,
       Except.error (BatchError.dirNotFound origDir)) ∧
    (mkdirParents (FS.mk [strippedDir] []) strippedDir).txtFiles =
      (FS.mk [strippedDir] []).txtFiles ∧
    strippedDir ∈
      (mkdirParents (FS.mk [strippedDir] []) strippedDir).dirs) :=
  ⟨⟨by decide, by decide⟩,
   batch_missing_input_dir (FS.mk [strippedDir] []) origDir strippedDir
     (by decide) (by decide)⟩

/-- Claim C9: over an existing input directory with a non-empty glob,
the batch operation completes with a record list characterizing every
file independently of the others: the processed list holds an
input-path/output-path record for exactly the files whose
read-strip-write pipeline succeeds, and the failed list holds a
file/error record for exactly the files whose read or write fails —
in glob order, so one file's failure never prevents a later file from
being processed. -/
theorem batch_fault_isolation (fs : FS) (inputDir outputDir : String)
    (hin : inputDir ∈ (mkdirParents fs outputDir).dirs)
    (hne : fs.filesIn inputDir ≠ []) :
    (batch_strip_formatting fs inputDir outputDir).2 =
      Except.ok
        ⟨((fs.filesIn inputDir).filter fileOutcomeOk).map
            (fun f => ⟨pathJoin inputDir f.name,
                       pathJoin outputDir f.name⟩),
         ((fs.filesIn inputDir).filter
            (fun f => !(fileOutcomeOk f))).map
            (fun f => ⟨pathJoin inputDir f.name, fileError f⟩),
         []⟩ := by
  have hfi : (mkdirParents fs outputDir).filesIn inputDir =
      fs.filesIn inputDir := filesIn_mkdirParents fs outputDir inputDir
  unfold batch_strip_formatting
  rw [if_pos hin, hfi, if_neg hne, batchLoop_closed]
  simp

/-- Witness for C9 on the spec's example: `a.txt` readable, `b.txt`
failing to read with a permission error; `a.txt` is processed,
`b.txt` is recorded as failed. -/
theorem batch_fault_isolation_witness :
    (origDir ∈ (mkdirParents demoFS strippedDir).dirs ∧
      demoFS.filesIn origDir ≠ []) ∧
    (batch_strip_formatting demoFS origDir strippedDir).2 =
      Except.ok
        ⟨((demoFS.filesIn origDir).filter fileOutcomeOk).map
            (fun f => ⟨pathJoin origDir f.name,
                       pathJoin strippedDir f.name⟩),
         ((demoFS.filesIn origDir).filter
            (fun f => !(fileOutcomeOk f))).map
            (fun f => ⟨pathJoin origDir f.name, fileError f⟩),
         []⟩ :=
  ⟨⟨by decide, by decide⟩,
   batch_fault_isolation demoFS origDir strippedDir
     (by decide) (by decide)⟩

end Bababui
